import Mathlib

/-!
Formal model of the multi-memory-chat data core.

The core of the repository is a declarative PostgreSQL schema
(src/sql/10_memories.sql, src/unnamed/part_000 alias 20_memory_records.sql,
src/sql/30_chat_messages.sql): three tables with row-level-security
policies, a BEFORE UPDATE trigger stamping updated_at on memories, and an
AFTER INSERT trigger pruning chat_messages to the 10 most recent rows per
(user_id, memory_id) pair.

Shallow embedding conventions:
- uuid and timestamptz become Nat (only equality and order are used);
- a nullable SQL column becomes an Option; a NOT NULL constraint is
  checked at insert time, like the database does;
- a table is a List of row structures; the database state bundles the
  three tables plus the external auth.users id list;
- an RLS policy is a Bool predicate over the caller id (auth.uid()) and a
  row; SELECT and the USING clauses filter rows, a WITH CHECK clause is
  validated against the proposed row and aborts the statement on failure;
- each SQL statement is a function from the old state to a new state, or
  to Except String Db when the statement can be rejected; an error leaves
  the state unchanged, which models statement atomicity;
- ON DELETE CASCADE is applied by the foreign-key machinery as table
  owner, so cascading deletes bypass the row-level policies of the child
  tables.
-/

namespace MMChat

/-- Row of public.memories: id, user_id (FK auth.users ON DELETE CASCADE),
title (text NOT NULL), description (text, nullable), created_at,
updated_at. -/
structure MemoryRow where
  id : Nat
  user_id : Nat
  title : Option String
  description : Option String
  created_at : Nat
  updated_at : Nat
deriving DecidableEq

/-- Row of public.memory_records: id, memory_id (FK memories ON DELETE
CASCADE), user_id (FK auth.users ON DELETE CASCADE), content (text NOT
NULL), metadata (jsonb NOT NULL DEFAULT empty object, modelled as a
key-value list), created_at. -/
structure RecordRow where
  id : Nat
  memory_id : Nat
  user_id : Nat
  content : Option String
  metadata : List (String × String)
  created_at : Nat
deriving DecidableEq

/-- Row of public.chat_messages: id, user_id (FK auth.users ON DELETE
CASCADE), memory_id (FK memories ON DELETE CASCADE), role (text NOT NULL
with a CHECK constraint), content (text NOT NULL), created_at. -/
structure ChatRow where
  id : Nat
  user_id : Nat
  memory_id : Nat
  role : Option String
  content : Option String
  created_at : Nat
deriving DecidableEq

/-- The persistent state: the external auth.users table (just ids) and the
three tables of the schema. -/
structure Db where
  users : List Nat
  memories : List MemoryRow
  memory_records : List RecordRow
  chat_messages : List ChatRow
deriving DecidableEq

/-- Policy memories select own, and likewise the insert, update (USING and
WITH CHECK) and delete policies on public.memories: auth.uid() = user_id.
All four policies of 10_memories.sql carry this same predicate. -/
def memories_own (uid : Nat) (r : MemoryRow) : Bool :=
  uid == r.user_id

/-- The EXISTS subquery shared by every policy on memory_records and
chat_messages: EXISTS (SELECT 1 FROM public.memories m WHERE m.id =
memory_id AND m.user_id = auth.uid()). -/
def ownsMemory (db : Db) (uid mid : Nat) : Bool :=
  db.memories.any fun m => m.id == mid && m.user_id == uid

/-- Policies records select/insert/update/delete by owner on
public.memory_records: auth.uid() = user_id AND the parent memory exists
and is owned by auth.uid(). All four policies carry this predicate. -/
def records_by_owner (db : Db) (uid : Nat) (r : RecordRow) : Bool :=
  uid == r.user_id && ownsMemory db uid r.memory_id

/-- Policies chat select/insert/update/delete by owner on
public.chat_messages: auth.uid() = user_id AND the parent memory exists
and is owned by auth.uid(). All four policies carry this predicate. -/
def chat_by_owner (db : Db) (uid : Nat) (r : ChatRow) : Bool :=
  uid == r.user_id && ownsMemory db uid r.memory_id

/-- CHECK (role IN (user, assistant, system)). A NULL role passes the
CHECK (SQL three-valued logic) but is stopped by NOT NULL. -/
def chatRoleCheck : Option String → Bool
  | none => true
  | some s => s == "user" || s == "assistant" || s == "system"

/-- SELECT on public.memories by primary key: row-level security filters
the table through the memories select own policy before the WHERE clause
applies. A non-owner simply sees no row. -/
def selectMemory (caller mid : Nat) (db : Db) : List MemoryRow :=
  db.memories.filter fun r => r.id == mid && memories_own caller r

/-- INSERT INTO public.memories: NOT NULL on title, primary-key
uniqueness, the FK to auth.users, then the insert own WITH CHECK policy
against the proposed row. Any failure rejects the statement with no state
change. -/
def insertMemory (caller : Nat) (r : MemoryRow) (db : Db) : Except String Db :=
  if r.title.isNone then Except.error "not_null_violation"
  else if db.memories.any (fun m => m.id == r.id) then Except.error "unique_violation"
  else if !(db.users.contains r.user_id) then Except.error "foreign_key_violation"
  else if !(memories_own caller r) then Except.error "rls_violation"
  else Except.ok { db with memories := db.memories ++ [r] }

/-- An UPDATE payload for a memory: SET title / description when present.
The client may also try to supply its own updated_at value; the trigger
overwrites it. user_id, id and created_at are not settable (ownership is
non-transferable and ids are system generated). -/
structure MemoryUpdate where
  title : Option String := none
  description : Option String := none
  updated_at : Option Nat := none
deriving DecidableEq

/-- Application of the SET clauses of a memory UPDATE to one row,
including a client-supplied updated_at if any. -/
def applyMemoryUpdate (p : MemoryUpdate) (r : MemoryRow) : MemoryRow :=
  { r with
    title := match p.title with | some t => some t | none => r.title
    description := match p.description with | some d => some d | none => r.description
    updated_at := match p.updated_at with | some t => t | none => r.updated_at }

/-- Trigger function public.set_updated_at, fired BEFORE UPDATE on
public.memories FOR EACH ROW: new.updated_at = now(). -/
def set_updated_at (now : Nat) (r : MemoryRow) : MemoryRow :=
  { r with updated_at := now }

/-- UPDATE public.memories WHERE id = mid, as executed under row-level
security: rows are targeted through the update own USING clause, each
targeted row goes through set_updated_at (the BEFORE UPDATE trigger), and
the resulting row must satisfy the update own WITH CHECK clause or the
whole statement aborts. -/
def updateMemory (caller mid : Nat) (p : MemoryUpdate) (now : Nat) (db : Db) :
    Except String Db :=
  if db.memories.any (fun r => (r.id == mid && memories_own caller r) &&
      !(memories_own caller (set_updated_at now (applyMemoryUpdate p r)))) then
    Except.error "rls_violation"
  else
    Except.ok { db with memories := db.memories.map fun r =>
      if r.id == mid && memories_own caller r then set_updated_at now (applyMemoryUpdate p r)
      else r }

/-- The ids of the memories rows an authorized DELETE removes: the WHERE
clause id = mid filtered through the delete own USING clause. -/
def memoryVictims (caller mid : Nat) (db : Db) : List Nat :=
  (db.memories.filter fun r => r.id == mid && memories_own caller r).map fun r => r.id

/-- DELETE FROM public.memories WHERE id = mid under row-level security,
with the ON DELETE CASCADE of memory_records.memory_id and
chat_messages.memory_id: every dependent row of a deleted memory is
removed in the same atomic statement, bypassing child-table policies. -/
def deleteMemory (caller mid : Nat) (db : Db) : Db :=
  { db with
    memories := db.memories.filter fun r => !((memoryVictims caller mid db).contains r.id)
    memory_records :=
      db.memory_records.filter fun r => !((memoryVictims caller mid db).contains r.memory_id)
    chat_messages :=
      db.chat_messages.filter fun r => !((memoryVictims caller mid db).contains r.memory_id) }

/-- INSERT INTO public.memory_records: NOT NULL on content, primary-key
uniqueness, the FKs to auth.users and public.memories, then the records
insert by owner WITH CHECK policy against the proposed row. -/
def insertRecord (caller : Nat) (r : RecordRow) (db : Db) : Except String Db :=
  if r.content.isNone then Except.error "not_null_violation"
  else if db.memory_records.any (fun x => x.id == r.id) then Except.error "unique_violation"
  else if !(db.users.contains r.user_id) then Except.error "foreign_key_violation"
  else if !(db.memories.any fun m => m.id == r.memory_id) then
    Except.error "foreign_key_violation"
  else if !(records_by_owner db caller r) then Except.error "rls_violation"
  else Except.ok { db with memory_records := db.memory_records ++ [r] }

/-- Row a is strictly more recent than row b in the ORDER BY created_at
DESC, id DESC ranking of prune_chat_messages. -/
def chatGt (a b : ChatRow) : Bool :=
  decide (b.created_at < a.created_at ∨ (a.created_at = b.created_at ∧ b.id < a.id))

/-- Row a may precede row b under ORDER BY created_at DESC, id DESC:
a is not strictly less recent than b. This is the total preorder the sort
of prune_chat_messages uses. -/
def chatDescLe (a b : ChatRow) : Bool :=
  !(chatGt b a)

/-- WHERE user_id = NEW.user_id AND memory_id = NEW.memory_id. -/
def samePair (uid mid : Nat) (r : ChatRow) : Bool :=
  r.user_id == uid && r.memory_id == mid

/-- Trigger function public.prune_chat_messages, fired AFTER INSERT on
public.chat_messages FOR EACH ROW: DELETE the rows of NEW.user_id and
NEW.memory_id whose id appears beyond OFFSET 10 of the pair ranked by
created_at DESC, id DESC. -/
def prune_chat_messages (uid mid : Nat) (tbl : List ChatRow) : List ChatRow :=
  tbl.filter fun c =>
    !((((tbl.filter (samePair uid mid)).mergeSort chatDescLe).drop 10).map
        (fun r => r.id)).contains c.id

/-- INSERT INTO public.chat_messages: NOT NULL on role and content, the
role CHECK constraint, primary-key uniqueness, the FKs to auth.users and
public.memories, the chat insert by owner WITH CHECK policy against the
proposed row; on success the AFTER INSERT trigger prunes the
(NEW.user_id, NEW.memory_id) transcript, seeing the table with the new
row already in it. -/
def insertChatMessage (caller : Nat) (r : ChatRow) (db : Db) : Except String Db :=
  if r.role.isNone || r.content.isNone then Except.error "not_null_violation"
  else if !(chatRoleCheck r.role) then Except.error "check_violation"
  else if db.chat_messages.any (fun x => x.id == r.id) then Except.error "unique_violation"
  else if !(db.users.contains r.user_id) then Except.error "foreign_key_violation"
  else if !(db.memories.any fun m => m.id == r.memory_id) then
    Except.error "foreign_key_violation"
  else if !(chat_by_owner db caller r) then Except.error "rls_violation"
  else Except.ok { db with
    chat_messages := prune_chat_messages r.user_id r.memory_id (db.chat_messages ++ [r]) }

/-- The same INSERT with a failure injected into the prune trigger.
PostgreSQL semantics: prune_chat_messages has no EXCEPTION handler and an
AFTER ROW trigger runs inside the transaction of the triggering
statement, so an unhandled error in it aborts the whole INSERT and
nothing is committed. -/
def insertChatMessageWithPruneFault (pruneFails : Bool) (caller : Nat) (r : ChatRow)
    (db : Db) : Except String Db :=
  match insertChatMessage caller r db with
  | Except.error e => Except.error e
  | Except.ok db2 => if pruneFails then Except.error "prune_failed" else Except.ok db2

/-- An UPDATE payload for a chat message: SET role / content when
present. id, user_id, memory_id and created_at are not settable. -/
structure ChatUpdate where
  role : Option String := none
  content : Option String := none
deriving DecidableEq

/-- Application of the SET clauses of a chat_messages UPDATE to one row. -/
def applyChatUpdate (p : ChatUpdate) (r : ChatRow) : ChatRow :=
  { r with
    role := match p.role with | some x => some x | none => r.role
    content := match p.content with | some x => some x | none => r.content }

/-- UPDATE public.chat_messages WHERE id = cid under row-level security:
rows are targeted through the chat update by owner USING clause; each new
row must satisfy the WITH CHECK clause, the role CHECK constraint and NOT
NULL, else the statement aborts. The prune trigger is AFTER INSERT only
and does not fire here. -/
def updateChatMessage (caller cid : Nat) (p : ChatUpdate) (db : Db) : Except String Db :=
  if db.chat_messages.any (fun r => (r.id == cid && chat_by_owner db caller r) &&
      (!(chat_by_owner db caller (applyChatUpdate p r)) ||
       !(chatRoleCheck (applyChatUpdate p r).role) ||
       (applyChatUpdate p r).role.isNone || (applyChatUpdate p r).content.isNone)) then
    Except.error "update_rejected"
  else
    Except.ok { db with chat_messages := db.chat_messages.map fun r =>
      if r.id == cid && chat_by_owner db caller r then applyChatUpdate p r else r }

/-- The ids of the memories removed when user u is deleted from
auth.users: every memory with user_id = u (ON DELETE CASCADE of
memories.user_id). -/
def deadMemories (u : Nat) (db : Db) : List Nat :=
  (db.memories.filter fun m => m.user_id == u).map fun m => m.id

/-- DELETE FROM auth.users WHERE id = u, with every ON DELETE CASCADE of
the schema: memories.user_id, memory_records.user_id and
chat_messages.user_id cascade directly, and the deletion of the memories
of u cascades in turn through memory_records.memory_id and
chat_messages.memory_id. -/
def deleteUser (u : Nat) (db : Db) : Db :=
  { users := db.users.filter fun x => !(x == u)
    memories := db.memories.filter fun m => !(m.user_id == u)
    memory_records := db.memory_records.filter fun r =>
      !(r.user_id == u || (deadMemories u db).contains r.memory_id)
    chat_messages := db.chat_messages.filter fun c =>
      !(c.user_id == u || (deadMemories u db).contains c.memory_id) }

/-- One chat insert as the retention enforcer sees it: the row is
appended to the table and the AFTER INSERT trigger prunes the pair of the
inserted row. -/
def insertAndPrune (tbl : List ChatRow) (r : ChatRow) : List ChatRow :=
  prune_chat_messages r.user_id r.memory_id (tbl ++ [r])

/-- A sequence of chat inserts by one caller, stopping at the first
rejected statement. -/
def insertAll (caller : Nat) (msgs : List ChatRow) (db : Db) : Except String Db :=
  msgs.foldlM (fun d r => insertChatMessage caller r d) db

/-- Number of rows of l strictly more recent than x in the created_at
DESC, id DESC ranking. The prune trigger keeps exactly the rows of the
pair for which this count, over the rows of the pair, is below 10. -/
def countNewer (x : ChatRow) (l : List ChatRow) : Nat :=
  (l.filter fun y => chatGt y x).length

deriving instance DecidableEq for Except

/-- The same database with one memories row absent: the world used to
compare a non-owner request against the world where the memory does not
exist at all. -/
def removeMemoryRow (M : MemoryRow) (db : Db) : Db :=
  { db with memories := db.memories.filter fun r => !(r == M) }

/-- A user 1 memory used by the concrete scenarios. -/
def mem1 : MemoryRow :=
  { id := 1, user_id := 1, title := some "M1", description := none,
    created_at := 0, updated_at := 0 }

/-- A database with user 1 owning memory 1 and nothing else. -/
def scenarioDb : Db :=
  { users := [1], memories := [mem1], memory_records := [], chat_messages := [] }

/-- Message i of the 15-message retention scenario: id and created_at are
both i, so created_at is strictly increasing along the inserts. -/
def scenarioMsg (i : Nat) : ChatRow :=
  { id := i, user_id := 1, memory_id := 1, role := some "user", content := some "hi",
    created_at := i }

/-- A record of user 1 under memory 1. -/
def rec3 : RecordRow :=
  { id := 3, memory_id := 1, user_id := 1, content := some "note", metadata := [],
    created_at := 2 }

/-- A chat message of user 1 under memory 1. -/
def chat7 : ChatRow :=
  { id := 7, user_id := 1, memory_id := 1, role := some "user", content := some "old",
    created_at := 3 }

/-- The scenario database holding the chat message chat7. -/
def chatDb : Db :=
  { users := [1], memories := [mem1], memory_records := [], chat_messages := [chat7] }

/-- A proposed memory whose title is the empty string: NOT NULL accepts
it. -/
def emptyTitleMem : MemoryRow :=
  { id := 5, user_id := 1, title := some "", description := none,
    created_at := 0, updated_at := 0 }

/-- A proposed memory whose title is NULL: NOT NULL rejects it. -/
def nullTitleMem : MemoryRow :=
  { id := 6, user_id := 1, title := none, description := none,
    created_at := 0, updated_at := 0 }

/-- A two-user database in which user 1 owns a memory, a record and a
chat message. -/
def dbTwo : Db :=
  { users := [1, 2], memories := [mem1], memory_records := [rec3],
    chat_messages := [chat7] }

lemma chatGt_iff {a b : ChatRow} :
    chatGt a b = true ↔
      (b.created_at < a.created_at ∨ (a.created_at = b.created_at ∧ b.id < a.id)) := by
  simp [chatGt]

lemma chatGt_irrefl (a : ChatRow) : chatGt a a = false := by
  simp [chatGt]

lemma chatGt_asymm {a b : ChatRow} (h : chatGt a b = true) : chatGt b a = false := by
  have h1 := chatGt_iff.mp h
  simp only [chatGt, decide_eq_false_iff_not]
  omega

lemma chatGt_trans {a b c : ChatRow} (h1 : chatGt a b = true) (h2 : chatGt b c = true) :
    chatGt a c = true := by
  have h1' := chatGt_iff.mp h1
  have h2' := chatGt_iff.mp h2
  exact chatGt_iff.mpr (by omega)

lemma chatDescLe_trans (a b c : ChatRow) (h1 : chatDescLe a b = true)
    (h2 : chatDescLe b c = true) : chatDescLe a c = true := by
  simp only [chatDescLe, chatGt, Bool.not_eq_true', decide_eq_false_iff_not] at h1 h2 ⊢
  omega

lemma chatDescLe_total (a b : ChatRow) : (chatDescLe a b || chatDescLe b a) = true := by
  simp only [chatDescLe, chatGt, Bool.or_eq_true, Bool.not_eq_true',
    decide_eq_false_iff_not]
  omega

/-- The sort ranking is strict as soon as ids are distinct: two rows that
compare non-strictly and differ in id compare strictly. -/
lemma chatGt_of_le_of_ne {a b : ChatRow} (h1 : chatDescLe a b = true) (h2 : a.id ≠ b.id) :
    chatGt a b = true := by
  simp only [chatDescLe, chatGt, Bool.not_eq_true', decide_eq_false_iff_not] at h1
  simp only [chatGt, decide_eq_true_iff]
  omega

/-- Strictly descending in the created_at DESC, id DESC ranking. -/
def StrictDesc (l : List ChatRow) : Prop :=
  l.Pairwise fun a b => chatGt a b = true

lemma strictDesc_mergeSort (L : List ChatRow) (hids : (L.map fun r => r.id).Nodup) :
    StrictDesc (L.mergeSort chatDescLe) := by
  have hperm : (L.mergeSort chatDescLe).Perm L := List.mergeSort_perm L chatDescLe
  have hsorted : (L.mergeSort chatDescLe).Pairwise (fun a b => chatDescLe a b = true) :=
    List.sorted_mergeSort chatDescLe_trans chatDescLe_total L
  have hidss : ((L.mergeSort chatDescLe).map fun r => r.id).Nodup :=
    ((hperm.map fun r => r.id).nodup_iff).mpr hids
  have hne : (L.mergeSort chatDescLe).Pairwise fun a b => a.id ≠ b.id :=
    List.pairwise_map.mp hidss
  exact (hsorted.and hne).imp fun h => chatGt_of_le_of_ne h.1 h.2

lemma countNewer_cons {x a : ChatRow} {t : List ChatRow} :
    countNewer x (a :: t) = countNewer x t + (if chatGt a x = true then 1 else 0) := by
  by_cases h : chatGt a x = true
  · simp [countNewer, List.filter_cons, h]
  · simp [countNewer, List.filter_cons, h]

lemma countNewer_append {x : ChatRow} {l t : List ChatRow} :
    countNewer x (l ++ t) = countNewer x l + countNewer x t := by
  simp [countNewer, List.filter_append]

lemma countNewer_singleton {x r : ChatRow} :
    countNewer x [r] = (if chatGt r x = true then 1 else 0) := by
  by_cases h : chatGt r x = true <;> simp [countNewer, h]

/-- On a strictly descending list the rows ranked before position n are
exactly the rows with fewer than n strictly more recent rows in the
list. -/
lemma filter_top_eq_take (l : List ChatRow) (hs : StrictDesc l) :
    ∀ n : Nat, (l.filter fun y => decide (countNewer y l < n)) = l.take n := by
  induction l with
  | nil => intro n; simp
  | cons a t ih =>
    intro n
    rcases List.pairwise_cons.mp hs with ⟨ha, ht⟩
    have hca : countNewer a (a :: t) = 0 := by
      have : (a :: t).filter (fun y => chatGt y a) = [] := by
        rw [List.filter_eq_nil_iff]
        intro y hy
        rcases List.mem_cons.mp hy with rfl | hyt
        · simp [chatGt_irrefl]
        · simp [chatGt_asymm (ha y hyt)]
      simp [countNewer, this]
    have hcy : ∀ y ∈ t, countNewer y (a :: t) = countNewer y t + 1 := by
      intro y hy
      rw [countNewer_cons, if_pos (ha y hy)]
    cases n with
    | zero =>
      simp
    | succ k =>
      rw [List.filter_cons, if_pos (by simp [hca]), List.take_succ_cons]
      congr 1
      have hcongr : (t.filter fun y => decide (countNewer y (a :: t) < k + 1))
          = t.filter fun y => decide (countNewer y t < k) := by
        refine List.filter_congr fun y hy => ?_
        rw [hcy y hy]
        exact decide_eq_decide.mpr (by omega)
      rw [hcongr]
      exact ih ht k

/-- Counting the rows that survive a keep-the-top-n filter: a list with
distinct ids keeps exactly min length n rows. -/
lemma length_filter_top (L : List ChatRow) (hids : (L.map fun r => r.id).Nodup) (n : Nat) :
    (L.filter fun y => decide (countNewer y L < n)).length = min L.length n := by
  have hperm : (L.mergeSort chatDescLe).Perm L := List.mergeSort_perm L chatDescLe
  have hstrict : StrictDesc (L.mergeSort chatDescLe) := strictDesc_mergeSort L hids
  have hc : ∀ y, countNewer y L = countNewer y (L.mergeSort chatDescLe) := by
    intro y
    exact ((hperm.filter fun z => chatGt z y).length_eq).symm
  have h1 : (L.filter fun y => decide (countNewer y L < n)).length
      = ((L.mergeSort chatDescLe).filter fun y => decide (countNewer y L < n)).length :=
    ((hperm.filter fun y => decide (countNewer y L < n)).length_eq).symm
  rw [h1, List.filter_congr (fun y _ => by rw [hc y]),
    filter_top_eq_take (L.mergeSort chatDescLe) hstrict n, List.length_take,
    hperm.length_eq, Nat.min_comm]

/-- countNewer into the top-n filtered list: the count saturates at n. -/
lemma countNewer_filter_top (A : List ChatRow) (hids : (A.map fun r => r.id).Nodup)
    (x : ChatRow) (n : Nat) :
    countNewer x (A.filter fun y => decide (countNewer y A < n)) = min (countNewer x A) n := by
  have hGids : ((A.filter fun y => chatGt y x).map fun r => r.id).Nodup :=
    List.Nodup.sublist ((List.filter_sublist A).map fun r => r.id) hids
  have hyG : ∀ y ∈ A.filter fun z => chatGt z x,
      countNewer y A = countNewer y (A.filter fun z => chatGt z x) := by
    intro y hy
    have hyx : chatGt y x = true := (List.mem_filter.mp hy).2
    show (A.filter fun z => chatGt z y).length
      = ((A.filter fun z => chatGt z x).filter fun z => chatGt z y).length
    rw [List.filter_filter]
    exact congrArg List.length (List.filter_congr fun z _ => by
      by_cases h : chatGt z y = true
      · simp [h, chatGt_trans h hyx]
      · simp [h]).symm
  have h1 : countNewer x (A.filter fun y => decide (countNewer y A < n))
      = ((A.filter fun y => chatGt y x).filter fun y => decide (countNewer y A < n)).length := by
    show ((A.filter fun y => decide (countNewer y A < n)).filter fun y => chatGt y x).length = _
    rw [List.filter_filter, List.filter_filter]
    exact congrArg List.length (List.filter_congr fun y _ => Bool.and_comm _ _)
  rw [h1, List.filter_congr (fun y hy => by rw [hyG y hy]),
    length_filter_top (A.filter fun z => chatGt z x) hGids n]
  rfl

lemma prune_sublist (uid mid : Nat) (tbl : List ChatRow) :
    (prune_chat_messages uid mid tbl).Sublist tbl :=
  List.filter_sublist tbl

/-- Characterization of the prune trigger on a table with distinct ids: a
row of the table survives iff it is not a row of the targeted pair with
10 or more strictly more recent rows in that pair. -/
lemma prune_mem_iff (uid mid : Nat) (tbl : List ChatRow)
    (hids : (tbl.map fun r => r.id).Nodup) (x : ChatRow) (hx : x ∈ tbl) :
    x ∈ prune_chat_messages uid mid tbl ↔
      (samePair uid mid x = true → countNewer x (tbl.filter (samePair uid mid)) < 10) := by
  unfold prune_chat_messages
  rw [List.mem_filter]
  set S := tbl.filter (samePair uid mid) with hS
  set s := S.mergeSort chatDescLe with hs
  have hperm : s.Perm S := List.mergeSort_perm S chatDescLe
  have hSsub : S.Sublist tbl := List.filter_sublist tbl
  have hSids : (S.map fun r => r.id).Nodup :=
    List.Nodup.sublist (hSsub.map fun r => r.id) hids
  have hstrict : StrictDesc s := strictDesc_mergeSort S hSids
  have hsids : (s.map fun r => r.id).Nodup := ((hperm.map fun r => r.id).nodup_iff).mpr hSids
  have hsnodup : s.Nodup := List.Nodup.of_map _ hsids
  have hdropmem : ∀ y ∈ s.drop 10, y ∈ S := fun y hy =>
    hperm.mem_iff.mp (List.mem_of_mem_drop hy)
  have hcontains : ((s.drop 10).map fun r => r.id).contains x.id = true ↔ x ∈ s.drop 10 := by
    constructor
    · intro h
      have h2 : x.id ∈ (s.drop 10).map fun r => r.id := List.elem_iff.mp h
      rcases List.mem_map.mp h2 with ⟨y, hy, hyid⟩
      have hytbl : y ∈ tbl := hSsub.subset (hdropmem y hy)
      have hyx : y = x := List.inj_on_of_nodup_map hids hytbl hx hyid
      exact hyx ▸ hy
    · intro h
      exact List.elem_iff.mpr (List.mem_map.mpr ⟨x, h, rfl⟩)
  have htake : s.take 10 = s.filter fun y => decide (countNewer y s < 10) :=
    (filter_top_eq_take s hstrict 10).symm
  have hcS : countNewer x s = countNewer x S := (hperm.filter fun y => chatGt y x).length_eq
  have hdrop_iff : samePair uid mid x = true → (x ∈ s.drop 10 ↔ 10 ≤ countNewer x S) := by
    intro hpair
    have hxS : x ∈ S := List.mem_filter.mpr ⟨hx, hpair⟩
    have hxs : x ∈ s := hperm.mem_iff.mpr hxS
    have hsplit := List.take_append_drop 10 s
    have hnd : (s.take 10 ++ s.drop 10).Nodup := by rw [hsplit]; exact hsnodup
    rcases List.nodup_append.mp hnd with ⟨-, -, hdisj⟩
    constructor
    · intro hdx
      by_contra hlt
      push_neg at hlt
      have hxtake : x ∈ s.take 10 := by
        rw [htake]
        refine List.mem_filter.mpr ⟨hxs, ?_⟩
        rw [decide_eq_true_iff, hcS]
        omega
      exact hdisj hxtake hdx
    · intro hge
      have hxor : x ∈ s.take 10 ∨ x ∈ s.drop 10 := by
        rw [← List.mem_append, hsplit]; exact hxs
      rcases hxor with hxt | hxd
      · exfalso
        have hf := List.mem_filter.mp (htake ▸ hxt)
        have hlt : countNewer x s < 10 := by simpa using hf.2
        rw [hcS] at hlt
        omega
      · exact hxd
  have hkey : (!(((s.drop 10).map fun r => r.id).contains x.id)) = true ↔ x ∉ s.drop 10 := by
    constructor
    · intro h hmem
      rw [hcontains.mpr hmem] at h
      simp at h
    · intro hmem
      cases hb : ((s.drop 10).map fun r => r.id).contains x.id
      · rfl
      · exact absurd (hcontains.mp hb) hmem
  constructor
  · rintro ⟨-, hb⟩ hp
    have hnd := hkey.mp hb
    by_contra hlt
    push_neg at hlt
    exact hnd ((hdrop_iff hp).mpr hlt)
  · intro himp
    refine ⟨hx, hkey.mpr fun hmem => ?_⟩
    have hp : samePair uid mid x = true := (List.mem_filter.mp (hdropmem x hmem)).2
    have h1 := (hdrop_iff hp).mp hmem
    have h2 := himp hp
    omega

lemma countNewer_singleton_gt {x r : ChatRow} (h : chatGt r x = true) :
    countNewer x [r] = 1 := by
  simp [countNewer, h]

lemma countNewer_singleton_not {x r : ChatRow} (h : chatGt r x = false) :
    countNewer x [r] = 0 := by
  simp [countNewer, h]

/-- Invariant of a burst of inserts for one (owner, memory) pair, the
retention enforcer firing after each insert: starting from a table cur
holding the foreign rows tbl0 plus the currently retained rows of the
already-processed prefix pre, processing msgs leaves exactly tbl0 plus
the rows of pre ++ msgs with fewer than 10 strictly more recent rows
among pre ++ msgs. -/
lemma foldl_insertAndPrune_inv (u m : Nat) (tbl0 : List ChatRow)
    (h0 : ∀ r ∈ tbl0, samePair u m r = false) (msgs : List ChatRow) :
    ∀ pre cur : List ChatRow,
      (∀ r ∈ pre, r.user_id = u ∧ r.memory_id = m) →
      (∀ r ∈ msgs, r.user_id = u ∧ r.memory_id = m) →
      ((tbl0 ++ pre ++ msgs).map fun r => r.id).Nodup →
      cur.Sublist (tbl0 ++ pre) →
      (∀ x, x ∈ cur ↔ (x ∈ tbl0 ∨ (x ∈ pre ∧ countNewer x pre < 10))) →
      (msgs.foldl insertAndPrune cur).Sublist (tbl0 ++ pre ++ msgs) ∧
      ∀ x, x ∈ msgs.foldl insertAndPrune cur ↔
        (x ∈ tbl0 ∨ (x ∈ pre ++ msgs ∧ countNewer x (pre ++ msgs) < 10)) := by
  induction msgs with
  | nil =>
    intro pre cur hpre hmsgs hids hsub hmem
    constructor
    · simpa using hsub
    · simpa using hmem
  | cons r rest ih =>
    intro pre cur hpre hmsgs hids hsub hmem
    have hr : r.user_id = u ∧ r.memory_id = m := hmsgs r (List.mem_cons_self r rest)
    have hrpair : samePair u m r = true := by simp [samePair, hr.1, hr.2]
    rw [List.foldl_cons]
    have hstep : insertAndPrune cur r = prune_chat_messages u m (cur ++ [r]) := by
      rw [insertAndPrune, hr.1, hr.2]
    have hassoc : tbl0 ++ (pre ++ [r]) ++ rest = tbl0 ++ pre ++ (r :: rest) := by simp
    have hsub1 : (cur ++ [r]).Sublist (tbl0 ++ pre ++ [r]) :=
      hsub.append (List.Sublist.refl [r])
    have hsub2 : (tbl0 ++ pre ++ [r]).Sublist (tbl0 ++ pre ++ (r :: rest)) :=
      (List.Sublist.refl (tbl0 ++ pre)).append (by simp)
    have hids1 : ((cur ++ [r]).map fun x => x.id).Nodup :=
      List.Nodup.sublist ((hsub1.trans hsub2).map fun x => x.id) hids
    have hnodup_all : (tbl0 ++ pre ++ (r :: rest)).Nodup := List.Nodup.of_map _ hids
    have htp_nodup : (tbl0 ++ pre).Nodup :=
      List.Nodup.sublist (List.sublist_append_left _ _) hnodup_all
    have hpre_nodup : pre.Nodup :=
      List.Nodup.sublist (List.sublist_append_right _ _) htp_nodup
    have hpre_ids : (pre.map fun x => x.id).Nodup := by
      refine List.Nodup.sublist ?_ hids
      exact (((List.sublist_append_right tbl0 pre).trans
        (List.sublist_append_left _ _)).map _)
    have hcur_nodup : cur.Nodup := List.Nodup.sublist hsub htp_nodup
    have hpre_pair : ∀ x ∈ pre, samePair u m x = true := fun x hx => by
      have h := hpre x hx
      simp [samePair, h.1, h.2]
    have hTA : (cur.filter (samePair u m)).Perm
        (pre.filter fun y => decide (countNewer y pre < 10)) := by
      refine (List.perm_ext_iff_of_nodup
        (List.Nodup.sublist (List.filter_sublist cur) hcur_nodup)
        (List.Nodup.sublist (List.filter_sublist pre) hpre_nodup)).mpr fun x => ?_
      rw [List.mem_filter, List.mem_filter, hmem x]
      constructor
      · rintro ⟨h1 | ⟨h1, h2⟩, hp⟩
        · exact absurd hp (by simp [h0 x h1])
        · exact ⟨h1, by simpa using h2⟩
      · rintro ⟨h1, h2⟩
        exact ⟨Or.inr ⟨h1, by simpa using h2⟩, hpre_pair x h1⟩
    have hmemP : ∀ x, x ∈ prune_chat_messages u m (cur ++ [r]) ↔
        (x ∈ cur ++ [r] ∧ (samePair u m x = true →
          countNewer x ((cur ++ [r]).filter (samePair u m)) < 10)) := by
      intro x
      constructor
      · intro hxp
        have hx1 : x ∈ cur ++ [r] := (prune_sublist u m (cur ++ [r])).subset hxp
        exact ⟨hx1, (prune_mem_iff u m _ hids1 x hx1).mp hxp⟩
      · rintro ⟨hx1, h2⟩
        exact (prune_mem_iff u m _ hids1 x hx1).mpr h2
    have hfilters : (cur ++ [r]).filter (samePair u m)
        = cur.filter (samePair u m) ++ [r] := by
      rw [List.filter_append]
      congr 1
      simp [List.filter_cons, hrpair]
    have hmem1 : ∀ x, x ∈ prune_chat_messages u m (cur ++ [r]) ↔
        (x ∈ tbl0 ∨ (x ∈ pre ++ [r] ∧ countNewer x (pre ++ [r]) < 10)) := by
      intro x
      rw [hmemP x, hfilters]
      have hcnteq : countNewer x (cur.filter (samePair u m) ++ [r])
          = min (countNewer x pre) 10 + countNewer x [r] := by
        have h1 : countNewer x (cur.filter (samePair u m) ++ [r])
            = countNewer x ((pre.filter fun y => decide (countNewer y pre < 10)) ++ [r]) :=
          ((hTA.append_right [r]).filter fun y => chatGt y x).length_eq
        rw [h1, countNewer_append, countNewer_filter_top pre hpre_ids x 10]
      rw [hcnteq, countNewer_append (l := pre) (t := [r])]
      simp only [List.mem_append, List.mem_singleton]
      rw [hmem x]
      by_cases hp : samePair u m x = true
      · have hnt : x ∉ tbl0 := fun hh => by simp [h0 x hh] at hp
        cases hgt : chatGt r x
        · rw [countNewer_singleton_not hgt]
          constructor
          · rintro ⟨hmem2, himp⟩
            have harith := himp hp
            refine Or.inr ⟨?_, by omega⟩
            rcases hmem2 with (h1 | h2) | h3
            · exact absurd h1 hnt
            · exact Or.inl h2.1
            · exact Or.inr h3
          · rintro (h1 | ⟨hm2, harith⟩)
            · exact absurd h1 hnt
            · refine ⟨?_, fun _ => by omega⟩
              rcases hm2 with h2 | h3
              · exact Or.inl (Or.inr ⟨h2, by omega⟩)
              · exact Or.inr h3
        · rw [countNewer_singleton_gt hgt]
          constructor
          · rintro ⟨hmem2, himp⟩
            have harith := himp hp
            refine Or.inr ⟨?_, by omega⟩
            rcases hmem2 with (h1 | h2) | h3
            · exact absurd h1 hnt
            · exact Or.inl h2.1
            · exact Or.inr h3
          · rintro (h1 | ⟨hm2, harith⟩)
            · exact absurd h1 hnt
            · refine ⟨?_, fun _ => by omega⟩
              rcases hm2 with h2 | h3
              · exact Or.inl (Or.inr ⟨h2, by omega⟩)
              · exact Or.inr h3
      · have hxr : x ≠ r := fun hh => by
          rw [hh] at hp
          exact hp hrpair
        have hxpre : x ∉ pre := fun hh => hp (hpre_pair x hh)
        constructor
        · rintro ⟨hmem2, -⟩
          rcases hmem2 with (h1 | h2) | h3
          · exact Or.inl h1
          · exact absurd h2.1 hxpre
          · exact absurd h3 hxr
        · rintro (h1 | ⟨hm2, -⟩)
          · exact ⟨Or.inl (Or.inl h1), fun hh => absurd hh hp⟩
          · rcases hm2 with h2 | h3
            · exact absurd h2 hxpre
            · exact absurd h3 hxr
    have hpre1 : ∀ x ∈ pre ++ [r], x.user_id = u ∧ x.memory_id = m := by
      intro x hx
      rcases List.mem_append.mp hx with h | h
      · exact hpre x h
      · rw [List.mem_singleton.mp h]
        exact hr
    have hids2 : ((tbl0 ++ (pre ++ [r]) ++ rest).map fun x => x.id).Nodup := by
      rw [hassoc]
      exact hids
    have hsub3 : (prune_chat_messages u m (cur ++ [r])).Sublist (tbl0 ++ (pre ++ [r])) := by
      rw [← List.append_assoc]
      exact (prune_sublist u m (cur ++ [r])).trans hsub1
    have hconc := ih (pre ++ [r]) (prune_chat_messages u m (cur ++ [r])) hpre1
      (fun x hx => hmsgs x (List.mem_cons_of_mem r hx)) hids2 hsub3 hmem1
    have hl : pre ++ [r] ++ rest = pre ++ (r :: rest) := by simp
    rw [hstep]
    constructor
    · have h1 := hconc.1
      rwa [hassoc] at h1
    · intro x
      rw [(hconc.2) x, hl]

unseal List.merge List.mergeSort

/-- C1: for every sequence of chat inserts for a fixed (owner, memory)
pair into a table holding no rows of that pair, with the retention
enforcer firing after each insert, the pair ends with at most 10 rows,
and a row survives exactly when fewer than 10 of the inserted rows are
strictly more recent (created_at descending, ties by id descending); in
particular inserting the 15 scenario messages with strictly increasing
created_at through the real insert path leaves exactly messages 6
through 15. -/
theorem c1_retention_window (u m : Nat) (tbl0 msgs : List ChatRow)
    (h0 : ∀ r ∈ tbl0, samePair u m r = false)
    (hmsgs : ∀ r ∈ msgs, r.user_id = u ∧ r.memory_id = m)
    (hids : ((tbl0 ++ msgs).map fun r => r.id).Nodup) :
    ((msgs.foldl insertAndPrune tbl0).filter (samePair u m)).length ≤ 10 ∧
    (∀ x, x ∈ (msgs.foldl insertAndPrune tbl0).filter (samePair u m) ↔
      (x ∈ msgs ∧ countNewer x msgs < 10)) ∧
    insertAll 1 ((List.range 15).map fun i => scenarioMsg (i + 1)) scenarioDb =
      Except.ok { scenarioDb with
        chat_messages := (List.range 10).map fun i => scenarioMsg (i + 6) } := by
  obtain ⟨hsubF, hmemF⟩ := foldl_insertAndPrune_inv u m tbl0 h0 msgs [] tbl0
    (by intro x hx; cases hx)
    hmsgs
    (by simpa using hids)
    (by simp)
    (by intro x; simp)
  simp only [List.nil_append] at hmemF
  simp only [List.append_nil] at hsubF
  have hmemPair : ∀ x, x ∈ (msgs.foldl insertAndPrune tbl0).filter (samePair u m) ↔
      (x ∈ msgs ∧ countNewer x msgs < 10) := by
    intro x
    rw [List.mem_filter, hmemF x]
    constructor
    · rintro ⟨h1 | ⟨h1, h2⟩, hp⟩
      · exact absurd hp (by simp [h0 x h1])
      · exact ⟨h1, h2⟩
    · rintro ⟨h1, h2⟩
      have hp : samePair u m x = true := by
        have h3 := hmsgs x h1
        simp [samePair, h3.1, h3.2]
      exact ⟨Or.inr ⟨h1, h2⟩, hp⟩
  refine ⟨?_, hmemPair, by decide⟩
  have hnodupF : (msgs.foldl insertAndPrune tbl0).Nodup :=
    List.Nodup.sublist hsubF (List.Nodup.of_map _ hids)
  have hmsgs_nodup : msgs.Nodup :=
    List.Nodup.sublist (List.sublist_append_right _ _) (List.Nodup.of_map _ hids)
  have hmsgs_ids : (msgs.map fun r => r.id).Nodup :=
    List.Nodup.sublist ((List.sublist_append_right tbl0 msgs).map _) hids
  have hperm2 : ((msgs.foldl insertAndPrune tbl0).filter (samePair u m)).Perm
      (msgs.filter fun y => decide (countNewer y msgs < 10)) := by
    refine (List.perm_ext_iff_of_nodup
      (List.Nodup.sublist (List.filter_sublist _) hnodupF)
      (List.Nodup.sublist (List.filter_sublist _) hmsgs_nodup)).mpr fun x => ?_
    rw [hmemPair x, List.mem_filter, decide_eq_true_iff]
  have hlen := hperm2.length_eq
  rw [length_filter_top msgs hmsgs_ids 10] at hlen
  omega

/-- C1 witness: the scenario hypotheses hold at the 15-message input and
the theorem applies there, bounding the pair to at most 10 rows. -/
theorem c1_retention_window_witness :
    (∀ r ∈ ([] : List ChatRow), samePair 1 1 r = false) ∧
    (∀ r ∈ (List.range 15).map fun i => scenarioMsg (i + 1),
      r.user_id = 1 ∧ r.memory_id = 1) ∧
    (((([] : List ChatRow) ++ ((List.range 15).map fun i => scenarioMsg (i + 1))).map
      fun r => r.id).Nodup) ∧
    ((((List.range 15).map fun i => scenarioMsg (i + 1)).foldl insertAndPrune
      ([] : List ChatRow)).filter (samePair 1 1)).length ≤ 10 :=
  ⟨by decide, by decide, by decide,
    (c1_retention_window 1 1 [] ((List.range 15).map fun i => scenarioMsg (i + 1))
      (by decide) (by decide) (by decide)).1⟩

/-- C8: running the retention enforcer for a pair whose transcript
already holds at most 10 rows deletes nothing: the whole table, this
pair and every other, is returned unchanged. -/
theorem c8_prune_compliant_noop (uid mid : Nat) (tbl : List ChatRow)
    (h : (tbl.filter (samePair uid mid)).length ≤ 10) :
    prune_chat_messages uid mid tbl = tbl := by
  unfold prune_chat_messages
  have hlen : ((tbl.filter (samePair uid mid)).mergeSort chatDescLe).length ≤ 10 := by
    rw [(List.mergeSort_perm _ _).length_eq]
    exact h
  rw [List.drop_eq_nil_of_le hlen]
  simp

/-- C8 witness: a two-row transcript for the pair is compliant and the
enforcer returns the table unchanged. -/
theorem c8_prune_compliant_noop_witness :
    (([scenarioMsg 1, scenarioMsg 2].filter (samePair 1 1)).length ≤ 10) ∧
    prune_chat_messages 1 1 [scenarioMsg 1, scenarioMsg 2]
      = [scenarioMsg 1, scenarioMsg 2] :=
  ⟨by decide, c8_prune_compliant_noop 1 1 [scenarioMsg 1, scenarioMsg 2] (by decide)⟩

lemma selectMemory_no_target (c mid : Nat) (db : Db)
    (h : ∀ r ∈ db.memories, (r.id == mid && memories_own c r) = false) :
    selectMemory c mid db = [] := by
  unfold selectMemory
  exact List.filter_eq_nil_iff.mpr fun r hr => by rw [h r hr]; simp

lemma updateMemory_no_target (c mid : Nat) (p : MemoryUpdate) (now : Nat) (db : Db)
    (h : ∀ r ∈ db.memories, (r.id == mid && memories_own c r) = false) :
    updateMemory c mid p now db = Except.ok db := by
  have hany : (db.memories.any fun r => (r.id == mid && memories_own c r) &&
      !(memories_own c (set_updated_at now (applyMemoryUpdate p r)))) = false := by
    rw [List.any_eq_false]
    intro r hr
    rw [h r hr]
    simp
  have hmap : (db.memories.map fun r =>
      if r.id == mid && memories_own c r then set_updated_at now (applyMemoryUpdate p r)
      else r) = db.memories := by
    have h2 : ∀ r ∈ db.memories,
        (if r.id == mid && memories_own c r then set_updated_at now (applyMemoryUpdate p r)
         else r) = id r := by
      intro r hr
      rw [h r hr]
      simp
    rw [List.map_congr_left h2, List.map_id]
  unfold updateMemory
  rw [if_neg (by simp [hany]), hmap]

lemma deleteMemory_no_target (c mid : Nat) (db : Db)
    (h : ∀ r ∈ db.memories, (r.id == mid && memories_own c r) = false) :
    deleteMemory c mid db = db := by
  have hv : memoryVictims c mid db = [] := by
    unfold memoryVictims
    rw [List.filter_eq_nil_iff.mpr fun r hr => by rw [h r hr]; simp]
    rfl
  unfold deleteMemory
  rw [hv]
  simp

/-- C2: a caller who is not the owner of memory M gets the not-found
outcome on select, update and delete: the select returns no row, the
update and the delete match no row and leave the state unchanged, and
each outcome is the same as in the database where M does not exist. -/
theorem c2_nonowner_indistinguishable (C mid : Nat) (db : Db) (M : MemoryRow)
    (hids : (db.memories.map fun r => r.id).Nodup)
    (hM : M ∈ db.memories) (hMid : M.id = mid) (hC : C ≠ M.user_id) :
    selectMemory C mid db = [] ∧
    selectMemory C mid (removeMemoryRow M db) = [] ∧
    (∀ p now, updateMemory C mid p now db = Except.ok db) ∧
    (∀ p now, updateMemory C mid p now (removeMemoryRow M db)
      = Except.ok (removeMemoryRow M db)) ∧
    deleteMemory C mid db = db ∧
    deleteMemory C mid (removeMemoryRow M db) = removeMemoryRow M db := by
  have hkey : ∀ r ∈ db.memories, (r.id == mid && memories_own C r) = false := by
    intro r hr
    by_cases hrid : r.id = mid
    · have hrM : r = M := List.inj_on_of_nodup_map hids hr hM (by rw [hrid, hMid])
      rw [hrM]
      simp [memories_own, hC]
    · simp [hrid]
  have hkey2 : ∀ r ∈ (removeMemoryRow M db).memories,
      (r.id == mid && memories_own C r) = false := by
    intro r hr
    have h3 : r ∈ db.memories.filter fun x => !(x == M) := hr
    exact hkey r (List.mem_filter.mp h3).1
  exact ⟨selectMemory_no_target C mid db hkey, selectMemory_no_target C mid _ hkey2,
    fun p now => updateMemory_no_target C mid p now db hkey,
    fun p now => updateMemory_no_target C mid p now _ hkey2,
    deleteMemory_no_target C mid db hkey, deleteMemory_no_target C mid _ hkey2⟩

/-- C2 witness: user 2 against the memory of user 1; the hypotheses hold
and select by user 2 is empty in both worlds while delete is a no-op. -/
theorem c2_nonowner_indistinguishable_witness :
    ((scenarioDb.memories.map fun r => r.id).Nodup ∧ mem1 ∈ scenarioDb.memories ∧
      mem1.id = 1 ∧ (2 : Nat) ≠ mem1.user_id) ∧
    selectMemory 2 1 scenarioDb = [] ∧
    deleteMemory 2 1 scenarioDb = scenarioDb :=
  ⟨⟨by decide, by decide, by decide, by decide⟩,
    (c2_nonowner_indistinguishable 2 1 scenarioDb mem1 (by decide) (by decide)
      (by decide) (by decide)).1,
    (c2_nonowner_indistinguishable 2 1 scenarioDb mem1 (by decide) (by decide)
      (by decide) (by decide)).2.2.2.2.1⟩

/-- C4: an owner delete of memory M removes the memories row and every
memory_records and chat_messages row referencing it in one atomic state
transition, and referential integrity of the memory_id references is
preserved for all subsequent reads. -/
theorem c4_delete_cascades (c mid : Nat) (db : Db) (M : MemoryRow)
    (hM : M ∈ db.memories) (hMid : M.id = mid) (hown : M.user_id = c) :
    (∀ m2 ∈ (deleteMemory c mid db).memories, m2.id ≠ mid) ∧
    (∀ r ∈ (deleteMemory c mid db).memory_records, r.memory_id ≠ mid) ∧
    (∀ ch ∈ (deleteMemory c mid db).chat_messages, ch.memory_id ≠ mid) ∧
    ((∀ r ∈ db.memory_records, ∃ pm ∈ db.memories, pm.id = r.memory_id) →
      ∀ r ∈ (deleteMemory c mid db).memory_records,
        ∃ pm ∈ (deleteMemory c mid db).memories, pm.id = r.memory_id) ∧
    ((∀ ch ∈ db.chat_messages, ∃ pm ∈ db.memories, pm.id = ch.memory_id) →
      ∀ ch ∈ (deleteMemory c mid db).chat_messages,
        ∃ pm ∈ (deleteMemory c mid db).memories, pm.id = ch.memory_id) := by
  have hvic : mid ∈ memoryVictims c mid db := by
    unfold memoryVictims
    refine List.mem_map.mpr ⟨M, ?_, hMid⟩
    exact List.mem_filter.mpr ⟨hM, by simp [hMid, memories_own, hown]⟩
  have hct : (memoryVictims c mid db).contains mid = true := List.elem_iff.mpr hvic
  refine ⟨?_, ?_, ?_, ?_, ?_⟩
  · intro m2 hm2 heq
    have h3 : m2 ∈ db.memories.filter fun x => !((memoryVictims c mid db).contains x.id) := hm2
    have h2 := (List.mem_filter.mp h3).2
    rw [heq, hct] at h2
    simp at h2
  · intro r hr heq
    have h3 : r ∈ db.memory_records.filter
        fun x => !((memoryVictims c mid db).contains x.memory_id) := hr
    have h2 := (List.mem_filter.mp h3).2
    rw [heq, hct] at h2
    simp at h2
  · intro ch hch heq
    have h3 : ch ∈ db.chat_messages.filter
        fun x => !((memoryVictims c mid db).contains x.memory_id) := hch
    have h2 := (List.mem_filter.mp h3).2
    rw [heq, hct] at h2
    simp at h2
  · intro hint r hr
    have h3 : r ∈ db.memory_records.filter
        fun x => !((memoryVictims c mid db).contains x.memory_id) := hr
    have h2 := List.mem_filter.mp h3
    rcases hint r h2.1 with ⟨pm, hpm, hpmid⟩
    refine ⟨pm, ?_, hpmid⟩
    show pm ∈ db.memories.filter fun x => !((memoryVictims c mid db).contains x.id)
    refine List.mem_filter.mpr ⟨hpm, ?_⟩
    rw [hpmid]
    exact h2.2
  · intro hint ch hch
    have h3 : ch ∈ db.chat_messages.filter
        fun x => !((memoryVictims c mid db).contains x.memory_id) := hch
    have h2 := List.mem_filter.mp h3
    rcases hint ch h2.1 with ⟨pm, hpm, hpmid⟩
    refine ⟨pm, ?_, hpmid⟩
    show pm ∈ db.memories.filter fun x => !((memoryVictims c mid db).contains x.id)
    refine List.mem_filter.mpr ⟨hpm, ?_⟩
    rw [hpmid]
    exact h2.2

/-- C4 witness: deleting memory 1 of the scenario database by its owner
leaves no memories row with id 1. -/
theorem c4_delete_cascades_witness :
    (mem1 ∈ scenarioDb.memories ∧ mem1.id = 1 ∧ mem1.user_id = 1) ∧
    ∀ m2 ∈ (deleteMemory 1 1 scenarioDb).memories, m2.id ≠ 1 :=
  ⟨⟨by decide, by decide, by decide⟩,
    (c4_delete_cascades 1 1 scenarioDb mem1 (by decide) (by decide) (by decide)).1⟩

lemma updateMemory_ok (c mid : Nat) (p : MemoryUpdate) (now : Nat) (db : Db) :
    updateMemory c mid p now db = Except.ok { db with memories := (db.memories.map fun r =>
      if r.id == mid && memories_own c r then set_updated_at now (applyMemoryUpdate p r)
      else r) } := by
  unfold updateMemory
  rw [if_neg]
  intro hc
  rcases List.any_eq_true.mp hc with ⟨r, hr, hb⟩
  have heq : memories_own c (set_updated_at now (applyMemoryUpdate p r))
      = memories_own c r := rfl
  rw [heq] at hb
  cases hown : memories_own c r
  · rw [hown] at hb
    simp at hb
  · rw [hown] at hb
    simp at hb

/-- C5: a memory update by the owner always stamps updated_at with the
server time now, whatever updated_at the payload carries; under a
monotone clock the new updated_at is at least the old one and the
invariant created_at at most updated_at is preserved. -/
theorem c5_update_stamps_updated_at (c mid : Nat) (p : MemoryUpdate) (now : Nat) (db : Db)
    (M : MemoryRow) (hM : M ∈ db.memories) (hMid : M.id = mid) (hown : M.user_id = c)
    (hinv : M.created_at ≤ M.updated_at) (hclock : M.updated_at ≤ now) :
    ∃ db2, updateMemory c mid p now db = Except.ok db2 ∧
      set_updated_at now (applyMemoryUpdate p M) ∈ db2.memories ∧
      (set_updated_at now (applyMemoryUpdate p M)).updated_at = now ∧
      M.updated_at ≤ (set_updated_at now (applyMemoryUpdate p M)).updated_at ∧
      (set_updated_at now (applyMemoryUpdate p M)).created_at
        ≤ (set_updated_at now (applyMemoryUpdate p M)).updated_at := by
  refine ⟨_, updateMemory_ok c mid p now db, ?_, rfl, hclock, ?_⟩
  · have hcond : (M.id == mid && memories_own c M) = true := by
      simp [hMid, memories_own, hown]
    show set_updated_at now (applyMemoryUpdate p M) ∈ db.memories.map fun r =>
      if r.id == mid && memories_own c r then set_updated_at now (applyMemoryUpdate p r)
      else r
    have h3 := List.mem_map_of_mem (fun r => if r.id == mid && memories_own c r
      then set_updated_at now (applyMemoryUpdate p r) else r) hM
    simpa [hcond] using h3
  · show M.created_at ≤ now
    omega

/-- C5 witness: the owner updates memory 1 with a forged updated_at of 0
at server time 7; the stored row carries updated_at 7. -/
theorem c5_update_stamps_updated_at_witness :
    (mem1 ∈ scenarioDb.memories ∧ mem1.id = 1 ∧ mem1.user_id = 1 ∧
      mem1.created_at ≤ mem1.updated_at ∧ mem1.updated_at ≤ 7) ∧
    ∃ db2, updateMemory 1 1 { updated_at := some 0 } 7 scenarioDb = Except.ok db2 ∧
      set_updated_at 7 (applyMemoryUpdate { updated_at := some 0 } mem1) ∈ db2.memories ∧
      (set_updated_at 7 (applyMemoryUpdate { updated_at := some 0 } mem1)).updated_at = 7 ∧
      mem1.updated_at
        ≤ (set_updated_at 7 (applyMemoryUpdate { updated_at := some 0 } mem1)).updated_at ∧
      (set_updated_at 7 (applyMemoryUpdate { updated_at := some 0 } mem1)).created_at
        ≤ (set_updated_at 7 (applyMemoryUpdate { updated_at := some 0 } mem1)).updated_at :=
  ⟨⟨by decide, by decide, by decide, by decide, by decide⟩,
    c5_update_stamps_updated_at 1 1 { updated_at := some 0 } 7 scenarioDb mem1
      (by decide) (by decide) (by decide) (by decide) (by decide)⟩

lemma records_by_owner_iff (db : Db) (c : Nat) (r : RecordRow) :
    records_by_owner db c r = true ↔
      (c = r.user_id ∧ ∃ pm ∈ db.memories, pm.id = r.memory_id ∧ pm.user_id = c) := by
  simp [records_by_owner, ownsMemory]

lemma chat_by_owner_iff (db : Db) (c : Nat) (r : ChatRow) :
    chat_by_owner db c r = true ↔
      (c = r.user_id ∧ ∃ pm ∈ db.memories, pm.id = r.memory_id ∧ pm.user_id = c) := by
  simp [chat_by_owner, ownsMemory]

/-- C3: an insert of a record or of a chat message commits only when the
caller-supplied owner equals the caller and the parent memory exists and
is owned by the caller; with a mismatched owner or parent pairing the
statement is rejected and no row is written. -/
theorem c3_insert_requires_owner_chain (c : Nat) (r : RecordRow) (ch : ChatRow) (db : Db) :
    (∀ db2, insertRecord c r db = Except.ok db2 →
      c = r.user_id ∧ ∃ pm ∈ db.memories, pm.id = r.memory_id ∧ pm.user_id = c) ∧
    (∀ db2, insertChatMessage c ch db = Except.ok db2 →
      c = ch.user_id ∧ ∃ pm ∈ db.memories, pm.id = ch.memory_id ∧ pm.user_id = c) ∧
    (¬(c = r.user_id ∧ ∃ pm ∈ db.memories, pm.id = r.memory_id ∧ pm.user_id = c) →
      ∃ e, insertRecord c r db = Except.error e) ∧
    (¬(c = ch.user_id ∧ ∃ pm ∈ db.memories, pm.id = ch.memory_id ∧ pm.user_id = c) →
      ∃ e, insertChatMessage c ch db = Except.error e) := by
  refine ⟨?_, ?_, ?_, ?_⟩
  · intro db2 h
    unfold insertRecord at h
    split_ifs at h with h1 h2 h3 h4 h5
    any_goals simp at h
    exact (records_by_owner_iff db c r).mp (by simpa using h5)
  · intro db2 h
    unfold insertChatMessage at h
    split_ifs at h with h1 h2 h3 h4 h5 h6
    any_goals simp at h
    exact (chat_by_owner_iff db c ch).mp (by simpa using h6)
  · intro hno
    have hpol : records_by_owner db c r = false := by
      cases hb : records_by_owner db c r
      · rfl
      · exact absurd ((records_by_owner_iff db c r).mp hb) hno
    unfold insertRecord
    split_ifs with h1 h2 h3 h4 h5
    any_goals exact ⟨_, rfl⟩
    exact absurd (by rw [hpol]; rfl) h5
  · intro hno
    have hpol : chat_by_owner db c ch = false := by
      cases hb : chat_by_owner db c ch
      · rfl
      · exact absurd ((chat_by_owner_iff db c ch).mp hb) hno
    unfold insertChatMessage
    split_ifs with h1 h2 h3 h4 h5 h6
    any_goals exact ⟨_, rfl⟩
    exact absurd (by rw [hpol]; rfl) h6

/-- C3 witness: a record insert by the owner succeeds and satisfies the
owner chain, and the same insert attempted by user 2 is rejected. -/
theorem c3_insert_requires_owner_chain_witness :
    (1 = rec3.user_id ∧ ∃ pm ∈ scenarioDb.memories, pm.id = rec3.memory_id ∧
      pm.user_id = 1) ∧
    (∃ e, insertRecord 2 rec3 scenarioDb = Except.error e) :=
  ⟨(c3_insert_requires_owner_chain 1 rec3 (scenarioMsg 1) scenarioDb).1
      { scenarioDb with memory_records := [rec3] } (by decide),
    (c3_insert_requires_owner_chain 2 rec3 (scenarioMsg 1) scenarioDb).2.2.1 (by decide)⟩

/-- C6 counterexample: with a failure injected into the prune trigger the
whole INSERT aborts, so the claim that the inserted row persists is
false: the very same insert succeeds without the fault, yet with the
fault the statement returns an error and no state. -/
theorem c6_counterexample_insert_rolled_back :
    insertChatMessageWithPruneFault true 1 (scenarioMsg 1) scenarioDb
      = Except.error "prune_failed" ∧
    (insertChatMessage 1 (scenarioMsg 1) scenarioDb).isOk = true :=
  ⟨by decide, by decide⟩

/-- C6 amended: an unhandled prune failure aborts the whole INSERT
statement, so the insert never commits when the prune step fails: the
AFTER ROW trigger has no exception handler and runs inside the
transaction of the INSERT. -/
theorem c6_prune_failure_aborts_insert (caller : Nat) (r : ChatRow) (db : Db) :
    (insertChatMessageWithPruneFault true caller r db).isOk = false := by
  unfold insertChatMessageWithPruneFault
  rcases hres : insertChatMessage caller r db with e | db2 <;> rfl

/-- C7 counterexample: a memory whose title is the empty string is
accepted by the schema, which only enforces NOT NULL, so the claim that
an empty title is rejected is false. -/
theorem c7_counterexample_empty_title_accepted :
    (insertMemory 1 emptyTitleMem scenarioDb).isOk = true ∧
    emptyTitleMem.title = some "" :=
  ⟨by decide, by decide⟩

/-- C7 amended: a create with a NULL title or NULL content, or a chat
message whose role is outside user, assistant, system, is rejected
before any write; only nullness and the role CHECK are enforced, not
non-emptiness. -/
theorem c7_null_and_role_validation (c : Nat) (db : Db) (M : MemoryRow) (r : RecordRow)
    (ch : ChatRow) :
    (M.title = none → ∃ e, insertMemory c M db = Except.error e) ∧
    (r.content = none → ∃ e, insertRecord c r db = Except.error e) ∧
    (ch.content = none → ∃ e, insertChatMessage c ch db = Except.error e) ∧
    (∀ s, ch.role = some s → s ≠ "user" → s ≠ "assistant" → s ≠ "system" →
      ∃ e, insertChatMessage c ch db = Except.error e) := by
  refine ⟨?_, ?_, ?_, ?_⟩
  · intro h
    unfold insertMemory
    rw [if_pos (by rw [h]; rfl)]
    exact ⟨_, rfl⟩
  · intro h
    unfold insertRecord
    rw [if_pos (by rw [h]; rfl)]
    exact ⟨_, rfl⟩
  · intro h
    unfold insertChatMessage
    rw [if_pos (by rw [h]; simp)]
    exact ⟨_, rfl⟩
  · intro s hrole h1 h2 h3
    unfold insertChatMessage
    rw [hrole]
    cases hcc : ch.content.isNone
    · rw [if_neg (by simp), if_pos (by simp [chatRoleCheck, h1, h2, h3])]
      exact ⟨_, rfl⟩
    · rw [if_pos (by simp)]
      exact ⟨_, rfl⟩

/-- C7 amended witness: the NULL-title insert and a bad-role insert are
both rejected at a concrete input. -/
theorem c7_null_and_role_validation_witness :
    (nullTitleMem.title = none ∧ ∃ e, insertMemory 1 nullTitleMem scenarioDb
      = Except.error e) ∧
    (∃ e, insertChatMessage 1
      { id := 9, user_id := 1, memory_id := 1, role := some "root", content := some "x",
        created_at := 1 } scenarioDb = Except.error e) :=
  ⟨⟨by decide, (c7_null_and_role_validation 1 scenarioDb nullTitleMem rec3
      (scenarioMsg 1)).1 (by decide)⟩,
    (c7_null_and_role_validation 1 scenarioDb nullTitleMem rec3
      { id := 9, user_id := 1, memory_id := 1, role := some "root", content := some "x",
        created_at := 1 }).2.2.2 "root" (by decide) (by decide) (by decide) (by decide)⟩

/-- C9 counterexample: the chat update by owner policy lets the owner
update a chat message, so the claim that no update can ever succeed is
false: user 1 successfully rewrites the content of its own message. -/
theorem c9_counterexample_owner_update_succeeds :
    updateChatMessage 1 7 { content := some "new" } chatDb
      = Except.ok { chatDb with chat_messages :=
          [{ id := 7, user_id := 1, memory_id := 1, role := some "user",
             content := some "new", created_at := 3 }] } ∧
    chat7.content = some "old" :=
  ⟨by decide, by decide⟩

/-- C9 amended: a caller other than the owner of a chat message cannot
update it: the update matches no row and returns the state unchanged.
The schema does let the owner update its own messages. -/
theorem c9_nonowner_update_noop (c cid : Nat) (p : ChatUpdate) (db : Db)
    (h : ∀ r ∈ db.chat_messages, r.id = cid → r.user_id ≠ c) :
    updateChatMessage c cid p db = Except.ok db := by
  have hkey : ∀ r ∈ db.chat_messages, (r.id == cid && chat_by_owner db c r) = false := by
    intro r hr
    by_cases hid : r.id = cid
    · have hne := h r hr hid
      have hb : (c == r.user_id) = false :=
        beq_eq_false_iff_ne.mpr fun hh => hne hh.symm
      simp [chat_by_owner, hb]
    · simp [hid]
  have hany : (db.chat_messages.any fun r => (r.id == cid && chat_by_owner db c r) &&
      (!(chat_by_owner db c (applyChatUpdate p r)) ||
       !(chatRoleCheck (applyChatUpdate p r).role) ||
       (applyChatUpdate p r).role.isNone || (applyChatUpdate p r).content.isNone)) = false := by
    rw [List.any_eq_false]
    intro r hr
    rw [hkey r hr]
    simp
  have hmap : (db.chat_messages.map fun r => if r.id == cid && chat_by_owner db c r
      then applyChatUpdate p r else r) = db.chat_messages := by
    have h2 : ∀ r ∈ db.chat_messages,
        (if r.id == cid && chat_by_owner db c r then applyChatUpdate p r else r) = id r := by
      intro r hr
      rw [hkey r hr]
      simp
    rw [List.map_congr_left h2, List.map_id]
  unfold updateChatMessage
  rw [if_neg (by simp [hany]), hmap]

/-- C9 amended witness: user 2 tries to rewrite the chat message of user
1; the update leaves the database unchanged. -/
theorem c9_nonowner_update_noop_witness :
    (∀ r ∈ chatDb.chat_messages, r.id = 7 → r.user_id ≠ 2) ∧
    updateChatMessage 2 7 { content := some "hack" } chatDb = Except.ok chatDb :=
  ⟨by decide, c9_nonowner_update_noop 2 7 { content := some "hack" } chatDb (by decide)⟩

/-- C10: deleting a user from auth.users cascades through every foreign
key of the schema: no memories, memory_records or chat_messages row
owned by the deleted user survives, and when every row referenced an
existing user before the delete, every surviving row still does. -/
theorem c10_user_delete_cascades (u : Nat) (db : Db)
    (hm : ∀ r ∈ db.memories, r.user_id ∈ db.users)
    (hr : ∀ r ∈ db.memory_records, r.user_id ∈ db.users)
    (hc : ∀ r ∈ db.chat_messages, r.user_id ∈ db.users) :
    (∀ r ∈ (deleteUser u db).memories, r.user_id ≠ u) ∧
    (∀ r ∈ (deleteUser u db).memory_records, r.user_id ≠ u) ∧
    (∀ r ∈ (deleteUser u db).chat_messages, r.user_id ≠ u) ∧
    (∀ r ∈ (deleteUser u db).memories, r.user_id ∈ (deleteUser u db).users) ∧
    (∀ r ∈ (deleteUser u db).memory_records, r.user_id ∈ (deleteUser u db).users) ∧
    (∀ r ∈ (deleteUser u db).chat_messages, r.user_id ∈ (deleteUser u db).users) := by
  have hmemm : ∀ r : MemoryRow, r ∈ (deleteUser u db).memories →
      r ∈ db.memories ∧ r.user_id ≠ u := by
    intro r hrr
    have h3 : r ∈ db.memories.filter fun x => !(x.user_id == u) := hrr
    rcases List.mem_filter.mp h3 with ⟨h4, h5⟩
    exact ⟨h4, by simpa using h5⟩
  have hmemr : ∀ r : RecordRow, r ∈ (deleteUser u db).memory_records →
      r ∈ db.memory_records ∧ r.user_id ≠ u := by
    intro r hrr
    have h3 : r ∈ db.memory_records.filter fun x =>
        !(x.user_id == u || (deadMemories u db).contains x.memory_id) := hrr
    rcases List.mem_filter.mp h3 with ⟨h4, h5⟩
    refine ⟨h4, ?_⟩
    simp only [Bool.not_eq_true', Bool.or_eq_false_iff] at h5
    simpa using h5.1
  have hmemc : ∀ r : ChatRow, r ∈ (deleteUser u db).chat_messages →
      r ∈ db.chat_messages ∧ r.user_id ≠ u := by
    intro r hrr
    have h3 : r ∈ db.chat_messages.filter fun x =>
        !(x.user_id == u || (deadMemories u db).contains x.memory_id) := hrr
    rcases List.mem_filter.mp h3 with ⟨h4, h5⟩
    refine ⟨h4, ?_⟩
    simp only [Bool.not_eq_true', Bool.or_eq_false_iff] at h5
    simpa using h5.1
  have husers : ∀ x, x ∈ db.users → x ≠ u → x ∈ (deleteUser u db).users := by
    intro x h4 h5
    show x ∈ db.users.filter fun y => !(y == u)
    exact List.mem_filter.mpr ⟨h4, by simpa using h5⟩
  refine ⟨fun r h => (hmemm r h).2, fun r h => (hmemr r h).2, fun r h => (hmemc r h).2,
    ?_, ?_, ?_⟩
  · intro r h
    exact husers r.user_id (hm r (hmemm r h).1) (hmemm r h).2
  · intro r h
    exact husers r.user_id (hr r (hmemr r h).1) (hmemr r h).2
  · intro r h
    exact husers r.user_id (hc r (hmemc r h).1) (hmemc r h).2

/-- C10 witness: deleting user 1 from the two-user database removes every
row user 1 owned; the surviving tables reference existing users only. -/
theorem c10_user_delete_cascades_witness :
    ((∀ r ∈ dbTwo.memories, r.user_id ∈ dbTwo.users) ∧
      (∀ r ∈ dbTwo.memory_records, r.user_id ∈ dbTwo.users) ∧
      (∀ r ∈ dbTwo.chat_messages, r.user_id ∈ dbTwo.users)) ∧
    ∀ r ∈ (deleteUser 1 dbTwo).memories, r.user_id ≠ 1 :=
  ⟨⟨by decide, by decide, by decide⟩,
    (c10_user_delete_cascades 1 dbTwo (by decide) (by decide) (by decide)).1⟩

end MMChat
